import Mathlib

/-!
Verification of the selection & feature-result composition engine of the
`trueform` native server (`src/native/occt_server/main.cpp`).

The C++ source is shallowly embedded below.  JSON values (`nlohmann::json`)
become the inductive `JVal`; C++ `double` becomes `ℚ` (the source performs
exact arithmetic and exact `==` comparisons on values that originate from
JSON numbers, which are decimal literals); `std::unordered_map` becomes an
association list with insert-or-assign (`mapSet`) and lookup (`mapFind`);
C++ exceptions / error out-parameters become `Except String`.  The external
OCCT geometry kernel is out of scope per the design (§1, §6 of the spec) and
is abstracted as a structure of operation parameters (`GeomKernel`), with
kernel object handles represented by a type parameter `α`.
-/

/-- JSON values, mirroring `nlohmann::json`.  Numbers are modelled as `ℚ`. -/
inductive JVal : Type where
  | null : JVal
  | bool (b : Bool) : JVal
  | num (q : ℚ) : JVal
  | str (s : String) : JVal
  | arr (elems : List JVal) : JVal
  | obj (fields : List (String × JVal)) : JVal

/-- A JSON object's field list: the `meta` attribute bags of the source. -/
abbrev Meta : Type := List (String × JVal)

/-- Field lookup in a JSON object (first binding wins, as in `nlohmann::json`
which keeps unique keys). -/
def jGet (fields : Meta) (key : String) : Option JVal :=
  (fields.find? (fun p => p.1 == key)).map (fun p => p.2)

/-- Embeds `meta.value(key, default)` for a string default.  `nlohmann::json` returns
the default when the key is absent; a present value of the wrong type throws a
transport-level exception there, which no claim below exercises — we return
the default in that (never well-formed) case as well. -/
def metaStr (m : Meta) (key : String) (dflt : String) : String :=
  match jGet m key with
  | some (.str s) => s
  | _ => dflt

/-- Embeds `meta.value(key, default)` for a boolean default (see `metaStr`). -/
def metaBool (m : Meta) (key : String) (dflt : Bool) : Bool :=
  match jGet m key with
  | some (.bool b) => b
  | _ => dflt

/-- Embeds `meta.value(key, default)` for a numeric default (see `metaStr`). -/
def metaNum (m : Meta) (key : String) (dflt : ℚ) : ℚ :=
  match jGet m key with
  | some (.num q) => q
  | _ => dflt

/-- Embeds `meta.value(key, default)` returning the raw JSON value. -/
def metaVal (m : Meta) (key : String) (dflt : JVal) : JVal :=
  match jGet m key with
  | some v => v
  | none => dflt

/-- A 3-vector of exact coordinates (`gp_Vec` / `gp_Pnt`). -/
structure V3 : Type where
  x : ℚ
  y : ℚ
  z : ℚ
deriving DecidableEq

/-- Embeds `struct KernelObject` (main.cpp:59). -/
structure KernelObject : Type where
  id : String
  kind : String
  meta : Meta

/-- Embeds `struct KernelSelection` (main.cpp:65). -/
structure KernelSelection : Type where
  id : String
  kind : String
  meta : Meta

/-- Embeds `struct KernelResult` (main.cpp:71): named outputs plus the ordered
selection list. -/
structure KernelResult : Type where
  outputs : List (String × KernelObject)
  selections : List KernelSelection

/-- Embeds `unordered_map` insert-or-assign (`m[k] = v`): replaces the binding if the
key is present, appends it otherwise. -/
def mapSet {β : Type} : List (String × β) → String → β → List (String × β)
  | [], k, v => [(k, v)]
  | (k', v') :: rest, k, v =>
      if k' = k then (k', v) :: rest else (k', v') :: mapSet rest k v

/-- Embeds `unordered_map` lookup (`m.find(k)`). -/
def mapFind {β : Type} (m : List (String × β)) (k : String) : Option β :=
  (m.find? (fun p => p.1 == k)).map (fun p => p.2)

/-- Embeds `axisVectorFromString` (main.cpp:141). -/
def axisVectorFromString (dir : String) : V3 :=
  if dir = "+X" then ⟨1, 0, 0⟩
  else if dir = "-X" then ⟨-1, 0, 0⟩
  else if dir = "+Y" then ⟨0, 1, 0⟩
  else if dir = "-Y" then ⟨0, -1, 0⟩
  else if dir = "+Z" then ⟨0, 0, 1⟩
  else if dir = "-Z" then ⟨0, 0, -1⟩
  else ⟨0, 0, 1⟩

/-- Embeds `axisDirectionFromVector` (main.cpp:151): snap a vector to a canonical
axis token when its largest component magnitude is at least `0.9`, and
return `""` (indeterminate) otherwise. -/
def axisDirectionFromVector (v : V3) : String :=
  let ax := |v.x|
  let ay := |v.y|
  let az := |v.z|
  let maxVal := max ax (max ay az)
  if maxVal < 9/10 then ""
  else if ax ≥ ay ∧ ax ≥ az then (if v.x ≥ 0 then "+X" else "-X")
  else if ay ≥ ax ∧ ay ≥ az then (if v.y ≥ 0 then "+Y" else "-Y")
  else (if v.z ≥ 0 then "+Z" else "-Z")

/-- The six canonical axis tokens of the spec (§4.3). -/
def canonicalTokens : List String := ["+X", "-X", "+Y", "-Y", "+Z", "-Z"]

/-- Euclidean dot product. -/
def dotV3 (v w : V3) : ℚ := v.x * w.x + v.y * w.y + v.z * w.z

/-- Largest component magnitude of a vector (the `maxVal` of
`axisDirectionFromVector`). -/
def maxComp (v : V3) : ℚ := max |v.x| (max |v.y| |v.z|)

/-- Embeds `mergeResults` (main.cpp:397): outputs are upstream's overwritten by
next's; upstream selections whose string `ownerKey` occurs among next's
string `ownerKey`s are dropped; next's selections are appended. -/
def mergeResults (upstream next : KernelResult) : KernelResult :=
  let outputs :=
    next.outputs.foldl (fun acc kv => mapSet acc kv.1 kv.2) upstream.outputs
  let ownerKeys :=
    next.selections.foldl (fun acc sel =>
      match jGet sel.meta "ownerKey" with
      | some (.str k) => acc ++ [k]
      | _ => acc) []
  let kept :=
    upstream.selections.foldl (fun acc sel =>
      let skip :=
        match jGet sel.meta "ownerKey" with
        | some (.str owner) => ownerKeys.contains owner
        | _ => false
      if skip then acc else acc ++ [sel]) []
  ⟨outputs, kept ++ next.selections⟩

/-- The metadata `ownerKey` of a selection, when present as a string
(non-string values are ignored by `mergeResults`, exactly as in the source's
`contains && is_string` check). -/
def ownerKeyOf (sel : KernelSelection) : Option String :=
  match jGet sel.meta "ownerKey" with
  | some (.str k) => some k
  | _ => none

/-- The string `ownerKey` values appearing in a selection list. -/
def ownerKeysIn (sels : List KernelSelection) : List String :=
  sels.filterMap ownerKeyOf

/-- Selector predicates (`predKind` dispatch in `resolveSelector`,
main.cpp:492-504).  The source dispatches on the `kind` string of each
predicate object; the four recognized kinds become constructors and every
unrecognized kind string becomes `other` (which the loop leaves untouched,
i.e. the predicate passes). -/
inductive SelPred : Type where
  | planar : SelPred
  | normal (value : String) : SelPred
  | createdBy (featureId : String) : SelPred
  | role (value : String) : SelPred
  | other (kind : String) : SelPred

mutual
/-- A selector object.  `kind` is kept as the raw string because the source
filters candidates by comparing it against `"selector.face"` /
`"selector.edge"` / `"selector.solid"` and treats `"selector.named"`
specially; any other string applies no element-kind filter. -/
inductive Selector : Type where
  | mk (kind : String) (name : String) (predicates : List SelPred)
      (rank : List RankRule) : Selector

/-- Ranking-pipeline stages (`ruleKind` dispatch in `resolveSelector`,
main.cpp:513-576).  The four recognized kinds become constructors;
every unrecognized kind string becomes `other` (skipped by the loop). -/
inductive RankRule : Type where
  | maxArea : RankRule
  | minZ : RankRule
  | maxZ : RankRule
  | closestTo (target : Selector) : RankRule
  | other (kind : String) : RankRule
end

/-- One predicate check of the `resolveSelector` predicate loop
(main.cpp:492-504). -/
def predAccepts (sel : KernelSelection) : SelPred → Bool
  | .planar => metaBool sel.meta "planar" false
  | .normal v => metaStr sel.meta "normal" "" == v
  | .createdBy f => metaStr sel.meta "createdBy" "" == f
  | .role v => metaStr sel.meta "role" "" == v
  | .other _ => true

/-- The element-kind filter of `resolveSelector` (main.cpp:488-490): the
three `continue` checks; any other selector kind filters nothing. -/
def kindAccepts (kind : String) (sel : KernelSelection) : Bool :=
  if kind = "selector.face" then sel.kind == "face"
  else if kind = "selector.edge" then sel.kind == "edge"
  else if kind = "selector.solid" then sel.kind == "solid"
  else true

/-- The candidate set of `resolveSelector` (main.cpp:486-506): selections
passing the element-kind filter and every predicate. -/
def filterCandidates (kind : String) (preds : List SelPred)
    (sels : List KernelSelection) : List KernelSelection :=
  sels.filter (fun sel => kindAccepts kind sel && preds.all (predAccepts sel))

/-- Embeds `best = std::min(best, q)` with `best` initialized to `+infinity`
(modelled as `none`). -/
def optMin (b : Option ℚ) (q : ℚ) : Option ℚ :=
  match b with
  | none => some q
  | some p => some (min p q)

/-- Embeds `best = std::max(best, q)` with `best` initialized to `-infinity`
(modelled as `none`). -/
def optMax (b : Option ℚ) (q : ℚ) : Option ℚ :=
  match b with
  | none => some q
  | some p => some (max p q)

/-- The target's `center` metadata as read by the `rank.closestTo` branch
(main.cpp:548-555): a missing key defaults to `[0,0,0]`, and anything that
is not an array of length at least 3 is an error.  Element reads
(`center[i].get<double>()`) throw in the source when an element is not a
number; well-formed metadata never hits that case and we read `0` there. -/
def centerTriple (m : Meta) : Option V3 :=
  match metaVal m "center" (.arr [.num 0, .num 0, .num 0]) with
  | .arr (a :: b :: c :: _) => some ⟨asNum a, asNum b, asNum c⟩
  | _ => none
where
  /-- Embeds `x.get<double>()` on a JSON value expected to be a number. -/
  asNum : JVal → ℚ
    | .num q => q
    | _ => 0

/-- A candidate's `center` metadata as read by the `rank.closestTo` scoring
loops (main.cpp:558, 567): the source indexes `cc[0..2]` without any check;
a malformed candidate center is undefined behaviour there and never arises
from well-formed metadata, so we read the origin in that case. -/
def candCenter (m : Meta) : V3 :=
  match metaVal m "center" (.arr [.num 0, .num 0, .num 0]) with
  | .arr (a :: b :: c :: _) =>
      ⟨centerTriple.asNum a, centerTriple.asNum b, centerTriple.asNum c⟩
  | _ => ⟨0, 0, 0⟩

/-- Squared Euclidean distance.  The source computes
`std::sqrt(dx*dx + dy*dy + dz*dz)` and then minimizes / compares these
distances with `==`; since `sqrt` is strictly monotone (hence injective) on
nonnegative reals, the minimizing candidates and the tie set are identical
whether one works with the distance or its square, and the square keeps the
model inside `ℚ`. -/
def dist2 (p q : V3) : ℚ :=
  (p.x - q.x) * (p.x - q.x) + (p.y - q.y) * (p.y - q.y) +
    (p.z - q.z) * (p.z - q.z)

mutual
/-- Embeds `resolveSelector` (main.cpp:468-583).  `selector.named` looks the name up
in `outputs` (error `Missing named output: _` when absent, the spec's
`MissingNamedOutput`); otherwise the candidate set is filtered
(`filterCandidates`), an empty set is the error `Selector matched 0
candidates` (the spec's `NoMatch`), the ranking pipeline runs (`runRank`),
and exactly one survivor is returned while anything else is the error
`Selector ambiguity after ranking` (the spec's `AmbiguousSelection`). -/
def resolveSelector (current : KernelResult) : Selector → Except String KernelSelection
  | .mk kind name preds rank =>
      if kind = "selector.named" then
        match mapFind current.outputs name with
        | none => .error ("Missing named output: " ++ name)
        | some o => .ok ⟨o.id, o.kind, o.meta⟩
      else
        let candidates := filterCandidates kind preds current.selections
        if candidates.isEmpty then .error "Selector matched 0 candidates"
        else
          match runRank current rank candidates with
          | .error e => .error e
          | .ok final =>
              match final with
              | [c] => .ok c
              | _ => .error "Selector ambiguity after ranking"
termination_by s => sizeOf s
decreasing_by all_goals simp_wf

/-- The ranking loop of `resolveSelector` (main.cpp:513-576): stages apply in
order while more than one candidate remains (`if (candidates.size() <= 1)
break`). -/
def runRank (current : KernelResult) (rules : List RankRule)
    (cands : List KernelSelection) : Except String (List KernelSelection) :=
  match rules with
  | [] => .ok cands
  | rule :: rest =>
      if cands.length ≤ 1 then .ok cands
      else
        match applyRule current cands rule with
        | .error e => .error e
        | .ok cands' => runRank current rest cands'
termination_by sizeOf rules
decreasing_by all_goals simp_wf; all_goals omega

/-- One ranking stage (the body of the rule loop, main.cpp:516-575). -/
def applyRule (current : KernelResult) (cands : List KernelSelection) :
    RankRule → Except String (List KernelSelection)
  | .maxArea =>
      let best := cands.foldl (fun b c => max b (metaNum c.meta "area" 0)) (-1)
      .ok (cands.filter (fun c => metaNum c.meta "area" 0 == best))
  | .minZ =>
      let best := cands.foldl (fun b c => optMin b (metaNum c.meta "centerZ" 0)) none
      .ok (cands.filter (fun c => some (metaNum c.meta "centerZ" 0) == best))
  | .maxZ =>
      let best := cands.foldl (fun b c => optMax b (metaNum c.meta "centerZ" 0)) none
      .ok (cands.filter (fun c => some (metaNum c.meta "centerZ" 0) == best))
  | .closestTo target =>
      match resolveSelector current target with
      | .error e => .error e
      | .ok tsel =>
          match centerTriple tsel.meta with
          | none => .error "Selector requires center metadata"
          | some tc =>
              let best := cands.foldl
                (fun b c => optMin b (dist2 (candCenter c.meta) tc)) none
              .ok (cands.filter
                (fun c => some (dist2 (candCenter c.meta) tc) == best))
  | .other _ => .ok cands
termination_by rule => sizeOf rule
decreasing_by all_goals simp_wf
end

theorem mapFind_cons {β : Type} (k₀ : String) (v₀ : β) (tl : List (String × β))
    (k : String) :
    mapFind ((k₀, v₀) :: tl) k = if k₀ = k then some v₀ else mapFind tl k := by
  by_cases h : k₀ = k
  · simp [mapFind, List.find?_cons, h]
  · simp [mapFind, List.find?_cons, h]

theorem mapFind_eq_none_of_not_mem {β : Type} (l : List (String × β)) (k : String)
    (h : k ∉ l.map Prod.fst) : mapFind l k = none := by
  induction l with
  | nil => rfl
  | cons hd tl ih =>
      obtain ⟨k₀, v₀⟩ := hd
      simp only [List.map_cons, List.mem_cons, not_or] at h
      rw [mapFind_cons, if_neg (fun hh => h.1 hh.symm)]
      exact ih h.2

theorem mapFind_mapSet_self {β : Type} (m : List (String × β)) (k : String) (v : β) :
    mapFind (mapSet m k v) k = some v := by
  induction m with
  | nil => simp [mapSet, mapFind_cons]
  | cons hd tl ih =>
      obtain ⟨k', v'⟩ := hd
      by_cases h : k' = k
      · subst h; simp [mapSet, mapFind_cons]
      · rw [mapSet, if_neg h, mapFind_cons, if_neg h]
        exact ih

theorem mapFind_mapSet_ne {β : Type} (m : List (String × β)) (k k' : String) (v : β)
    (h : k' ≠ k) : mapFind (mapSet m k v) k' = mapFind m k' := by
  induction m with
  | nil =>
      rw [show mapSet ([] : List (String × β)) k v = [(k, v)] from rfl,
        mapFind_cons, if_neg (Ne.symm h)]
  | cons hd tl ih =>
      obtain ⟨k₀, v₀⟩ := hd
      by_cases h₀ : k₀ = k
      · subst h₀
        rw [mapSet, if_pos rfl, mapFind_cons, if_neg (Ne.symm h),
          mapFind_cons, if_neg (Ne.symm h)]
      · rw [mapSet, if_neg h₀, mapFind_cons, mapFind_cons]
        by_cases h₁ : k₀ = k'
        · rw [if_pos h₁, if_pos h₁]
        · rw [if_neg h₁, if_neg h₁]
          exact ih

theorem mapFind_foldl_mapSet {β : Type} (ps : List (String × β)) :
    ∀ (m : List (String × β)) (k : String), (ps.map Prod.fst).Nodup →
    mapFind (ps.foldl (fun acc kv => mapSet acc kv.1 kv.2) m) k =
      match mapFind ps k with
      | some v => some v
      | none => mapFind m k := by
  induction ps with
  | nil => intro m k _; rfl
  | cons hd tl ih =>
      intro m k hnd
      obtain ⟨k₀, v₀⟩ := hd
      simp only [List.map_cons, List.nodup_cons] at hnd
      obtain ⟨hk₀, hnd'⟩ := hnd
      simp only [List.foldl_cons]
      rw [ih (mapSet m k₀ v₀) k hnd', mapFind_cons]
      by_cases h : k₀ = k
      · subst h
        have htl : mapFind tl k₀ = none := mapFind_eq_none_of_not_mem tl k₀ hk₀
        rw [htl, if_pos rfl, mapFind_mapSet_self]
      · rw [if_neg h, mapFind_mapSet_ne _ _ _ _ (fun hh => h hh.symm)]

/-- The claim's keep-condition for upstream selections in a merge: the
selection's `ownerKey` is absent (or not a string) or not among `keys`. -/
def keepsAgainst (keys : List String) (sel : KernelSelection) : Bool :=
  match ownerKeyOf sel with
  | some owner => !keys.contains owner
  | none => true

theorem ownerKeys_foldl (sels : List KernelSelection) :
    ∀ acc : List String,
    sels.foldl (fun acc sel =>
      match jGet sel.meta "ownerKey" with
      | some (.str k) => acc ++ [k]
      | _ => acc) acc = acc ++ ownerKeysIn sels := by
  induction sels with
  | nil => intro acc; simp [ownerKeysIn]
  | cons hd tl ih =>
      intro acc
      simp only [List.foldl_cons, ownerKeysIn, List.filterMap_cons]
      cases h : jGet hd.meta "ownerKey" with
      | none =>
          have hoc : ownerKeyOf hd = none := by simp [ownerKeyOf, h]
          simp only [h, hoc]
          exact ih acc
      | some v =>
          cases v with
          | str s =>
              have hoc : ownerKeyOf hd = some s := by simp [ownerKeyOf, h]
              simp only [h, hoc]
              rw [ih]
              simp [ownerKeysIn]
          | null =>
              have hoc : ownerKeyOf hd = none := by simp [ownerKeyOf, h]
              simp only [h, hoc]; exact ih acc
          | bool b =>
              have hoc : ownerKeyOf hd = none := by simp [ownerKeyOf, h]
              simp only [h, hoc]; exact ih acc
          | num q =>
              have hoc : ownerKeyOf hd = none := by simp [ownerKeyOf, h]
              simp only [h, hoc]; exact ih acc
          | arr es =>
              have hoc : ownerKeyOf hd = none := by simp [ownerKeyOf, h]
              simp only [h, hoc]; exact ih acc
          | obj fs =>
              have hoc : ownerKeyOf hd = none := by simp [ownerKeyOf, h]
              simp only [h, hoc]; exact ih acc

theorem keep_foldl (keys : List String) (sels : List KernelSelection) :
    ∀ acc : List KernelSelection,
    sels.foldl (fun acc sel =>
      let skip :=
        match jGet sel.meta "ownerKey" with
        | some (.str owner) => keys.contains owner
        | _ => false
      if skip then acc else acc ++ [sel]) acc
    = acc ++ sels.filter (keepsAgainst keys) := by
  induction sels with
  | nil => intro acc; simp
  | cons hd tl ih =>
      intro acc
      simp only [List.foldl_cons, List.filter_cons]
      have hstep : (match jGet hd.meta "ownerKey" with
        | some (.str owner) => keys.contains owner
        | _ => false) = !keepsAgainst keys hd := by
        simp only [keepsAgainst, ownerKeyOf]
        cases h : jGet hd.meta "ownerKey" with
        | none => rfl
        | some v => cases v <;> simp
      simp only [hstep]
      cases hk : keepsAgainst keys hd with
      | true =>
          simp only [hk, Bool.not_true, if_neg (by simp : ¬(false = true)),
            if_pos rfl]
          rw [ih]
          simp
      | false =>
          simp only [hk, Bool.not_false, if_pos rfl,
            if_neg (by simp : ¬(false = true))]
          exact ih acc

/-- Claim C1: for every pair of Result Models, `mergeResults upstream next`
returns a Result Model whose outputs are `upstream.outputs` with every key
present in `next.outputs` overwritten or inserted (last writer wins per key;
the `Nodup` hypothesis is the key-uniqueness invariant of the C++
`unordered_map` holding `outputs`), and whose selections are exactly the
upstream selections whose metadata `ownerKey` is absent (or not a string) or
not among the string `ownerKey` values appearing in `next.selections`, kept
unchanged and in their original order, followed by all of `next.selections`
in order. -/
theorem claim_C1_mergeResults (upstream next : KernelResult)
    (hnodup : (next.outputs.map Prod.fst).Nodup) :
    (∀ k, mapFind (mergeResults upstream next).outputs k =
      match mapFind next.outputs k with
      | some v => some v
      | none => mapFind upstream.outputs k) ∧
    (mergeResults upstream next).selections =
      upstream.selections.filter (keepsAgainst (ownerKeysIn next.selections))
        ++ next.selections := by
  constructor
  · intro k
    simp only [mergeResults]
    rw [mapFind_foldl_mapSet next.outputs upstream.outputs k hnodup]
    cases mapFind next.outputs k <;> rfl
  · simp only [mergeResults]
    rw [show (next.selections.foldl (fun acc sel =>
        match jGet sel.meta "ownerKey" with
        | some (.str k) => acc ++ [k]
        | _ => acc) [] : List String) = ownerKeysIn next.selections from
      ownerKeys_foldl next.selections []]
    rw [keep_foldl (ownerKeysIn next.selections) upstream.selections []]
    simp

def mwObjOld : KernelObject := ⟨"old", "solid", []⟩

def mwObjNew : KernelObject := ⟨"new", "solid", []⟩

def mwObjB : KernelObject := ⟨"bObj", "solid", []⟩

def mwSelOwned : KernelSelection :=
  ⟨"face", "face", [("ownerKey", .str "body:main")]⟩

def mwSelFree : KernelSelection := ⟨"edge", "edge", []⟩

def mwSelNew : KernelSelection :=
  ⟨"solid", "solid", [("ownerKey", .str "body:main")]⟩

def mwUp : KernelResult := ⟨[("a", mwObjOld)], [mwSelOwned, mwSelFree]⟩

def mwNext : KernelResult := ⟨[("a", mwObjNew), ("b", mwObjB)], [mwSelNew]⟩

/-- Witness for C1 at a concrete merge exercising output overwrite, output
insertion and `ownerKey` shadowing. -/
theorem claim_C1_mergeResults_witness :
    mapFind (mergeResults mwUp mwNext).outputs "a" = some mwObjNew ∧
    mapFind (mergeResults mwUp mwNext).outputs "b" = some mwObjB ∧
    (mergeResults mwUp mwNext).selections = [mwSelFree, mwSelNew] := by
  have h := claim_C1_mergeResults mwUp mwNext (by
    show (["a", "b"] : List String).Nodup
    decide)
  refine ⟨?_, ?_, ?_⟩
  · rw [h.1 "a"]; rfl
  · rw [h.1 "b"]; rfl
  · rw [h.2]; rfl

/-- Claim C9: for every selector whose kind is none of `selector.named`,
`selector.face`, `selector.edge`, `selector.solid`, resolution applies no
element-kind filter at all — every selection of the Result Model, of any
kind, passes `kindAccepts`, the candidate set is the selections filtered
only by the predicate list, and the resolution result does not depend on
which such unrecognized kind string was used. -/
theorem claim_C9_noKindFilter (kind : String)
    (h : kind ∉ ["selector.named", "selector.face", "selector.edge",
      "selector.solid"]) :
    (∀ sel : KernelSelection, kindAccepts kind sel = true) ∧
    (∀ (preds : List SelPred) (sels : List KernelSelection),
      filterCandidates kind preds sels =
        sels.filter (fun sel => preds.all (predAccepts sel))) ∧
    (∀ kind' : String,
      kind' ∉ ["selector.named", "selector.face", "selector.edge",
        "selector.solid"] →
      ∀ (name name' : String) (preds : List SelPred) (rank : List RankRule)
        (current : KernelResult),
      resolveSelector current (.mk kind name preds rank) =
        resolveSelector current (.mk kind' name' preds rank)) := by
  simp only [List.mem_cons, List.not_mem_nil, or_false, not_or] at h
  obtain ⟨h1, h2, h3, h4⟩ := h
  have hacc : ∀ sel : KernelSelection, kindAccepts kind sel = true := by
    intro sel
    simp [kindAccepts, h2, h3, h4]
  have hfilt : ∀ (preds : List SelPred) (sels : List KernelSelection),
      filterCandidates kind preds sels =
        sels.filter (fun sel => preds.all (predAccepts sel)) := by
    intro preds sels
    unfold filterCandidates
    apply List.filter_congr
    intro sel _
    rw [hacc sel, Bool.true_and]
  refine ⟨hacc, hfilt, ?_⟩
  intro kind' h' name name' preds rank current
  simp only [List.mem_cons, List.not_mem_nil, or_false, not_or] at h'
  obtain ⟨h1', h2', h3', h4'⟩ := h'
  have hacc' : ∀ sel : KernelSelection, kindAccepts kind' sel = true := by
    intro sel
    simp [kindAccepts, h2', h3', h4']
  have hfilt' : ∀ (preds : List SelPred) (sels : List KernelSelection),
      filterCandidates kind' preds sels =
        sels.filter (fun sel => preds.all (predAccepts sel)) := by
    intro preds sels
    unfold filterCandidates
    apply List.filter_congr
    intro sel _
    rw [hacc' sel, Bool.true_and]
  rw [resolveSelector, resolveSelector, if_neg h1, if_neg h1']
  simp only [hfilt, hfilt']

theorem runRank_nil_cands (current : KernelResult) (rules : List RankRule) :
    runRank current rules [] = .ok [] := by
  cases rules with
  | nil => rw [runRank]
  | cons r rs => rw [runRank]; simp

theorem runRank_other_middle (current : KernelResult) (k : String)
    (r1 r2 : List RankRule) :
    ∀ cands, runRank current (r1 ++ RankRule.other k :: r2) cands =
      runRank current (r1 ++ r2) cands := by
  induction r1 with
  | nil =>
      intro cands
      rw [List.nil_append, List.nil_append, runRank]
      by_cases h : cands.length ≤ 1
      · rw [if_pos h]
        cases r2 with
        | nil => rw [runRank]
        | cons r rs => rw [runRank, if_pos h]
      · rw [if_neg h]
        rw [show applyRule current cands (.other k) = .ok cands from by
          rw [applyRule]]
  | cons r rs ih =>
      intro cands
      rw [List.cons_append, List.cons_append, runRank, runRank]
      by_cases h : cands.length ≤ 1
      · rw [if_pos h, if_pos h]
      · rw [if_neg h, if_neg h]
        cases applyRule current cands r with
        | error e => rfl
        | ok cands' => exact ih cands'

/-- Claim C10: a ranking stage whose kind is not one of `rank.maxArea`,
`rank.minZ`, `rank.maxZ`, `rank.closestTo` (the `RankRule.other`
constructor, which embeds every unrecognized rank-kind string) leaves the
candidate set unchanged, is silently skipped at any position of the
pipeline, and never causes an error. -/
theorem claim_C10_unknownRankSkipped (current : KernelResult) (k : String) :
    (∀ cands, applyRule current cands (.other k) = .ok cands) ∧
    (∀ (r1 r2 : List RankRule) (cands : List KernelSelection),
      runRank current (r1 ++ RankRule.other k :: r2) cands =
        runRank current (r1 ++ r2) cands) ∧
    (∀ (kind name : String) (preds : List SelPred) (r1 r2 : List RankRule),
      resolveSelector current (.mk kind name preds (r1 ++ RankRule.other k :: r2)) =
        resolveSelector current (.mk kind name preds (r1 ++ r2))) := by
  refine ⟨fun cands => by rw [applyRule],
    fun r1 r2 cands => runRank_other_middle current k r1 r2 cands, ?_⟩
  intro kind name preds r1 r2
  rw [resolveSelector, resolveSelector]
  by_cases h : kind = "selector.named"
  · rw [if_pos h, if_pos h]
  · rw [if_neg h, if_neg h]
    simp only [runRank_other_middle current k r1 r2]

/-- Claim C3: when a class+predicate selector (kind not `selector.named`) is
resolved: zero candidates surviving the element-kind filter and the AND of
all predicates fail with `NoMatch` (`Selector matched 0 candidates`); after
the ranking pipeline, exactly one remaining candidate is returned, and more
than one remaining fails with `AmbiguousSelection` (`Selector ambiguity
after ranking`). -/
theorem claim_C3_outcomes (current : KernelResult) (kind name : String)
    (preds : List SelPred) (rank : List RankRule)
    (h : kind ≠ "selector.named") :
    (filterCandidates kind preds current.selections = [] →
      resolveSelector current (.mk kind name preds rank) =
        .error "Selector matched 0 candidates") ∧
    (∀ c, runRank current rank (filterCandidates kind preds current.selections)
        = .ok [c] →
      resolveSelector current (.mk kind name preds rank) = .ok c) ∧
    (∀ res, runRank current rank (filterCandidates kind preds current.selections)
        = .ok res → 2 ≤ res.length →
      resolveSelector current (.mk kind name preds rank) =
        .error "Selector ambiguity after ranking") := by
  rw [resolveSelector, if_neg h]
  refine ⟨?_, ?_, ?_⟩
  · intro hempty
    rw [hempty]
    rfl
  · intro c hrun
    by_cases hempty : (filterCandidates kind preds current.selections).isEmpty
    · exfalso
      rw [List.isEmpty_iff] at hempty
      rw [hempty, runRank_nil_cands] at hrun
      exact absurd (Except.ok.inj hrun) (by simp)
    · rw [if_neg hempty, hrun]
  · intro res hrun hlen
    by_cases hempty : (filterCandidates kind preds current.selections).isEmpty
    · exfalso
      rw [List.isEmpty_iff] at hempty
      rw [hempty, runRank_nil_cands] at hrun
      have : res = [] := (Except.ok.inj hrun).symm
      subst this
      simp at hlen
    · rw [if_neg hempty, hrun]
      match res, hlen with
      | a :: b :: rest, _ => rfl

def swFaceBig : KernelSelection :=
  ⟨"face", "face", [("planar", .bool true), ("area", .num 100)]⟩

def swFaceSmall : KernelSelection :=
  ⟨"face", "face", [("planar", .bool true), ("area", .num 25)]⟩

def swCurrent : KernelResult := ⟨[], [swFaceBig, swFaceSmall]⟩

/-- Witness for C3 at concrete inputs: an unmatched predicate yields
`NoMatch`, a `maxArea` stage singles out the larger face, and no ranking
over two candidates yields `AmbiguousSelection`. -/
theorem claim_C3_outcomes_witness :
    resolveSelector swCurrent (.mk "selector.face" "" [.role "nothing"] []) =
      .error "Selector matched 0 candidates" ∧
    resolveSelector swCurrent (.mk "selector.face" "" [] [.maxArea]) =
      .ok swFaceBig ∧
    resolveSelector swCurrent (.mk "selector.face" "" [] []) =
      .error "Selector ambiguity after ranking" := by
  refine ⟨?_, ?_, ?_⟩
  · exact (claim_C3_outcomes swCurrent "selector.face" "" [.role "nothing"] []
      (by decide)).1 (by rfl)
  · exact (claim_C3_outcomes swCurrent "selector.face" "" [] [.maxArea]
      (by decide)).2.1 swFaceBig (by
        have happ : applyRule swCurrent [swFaceBig, swFaceSmall] .maxArea =
            .ok [swFaceBig] := by
          rw [applyRule]; rfl
        have h0 : filterCandidates "selector.face" [] swCurrent.selections =
            [swFaceBig, swFaceSmall] := rfl
        rw [h0, runRank, if_neg (by decide), happ]
        show runRank swCurrent [] [swFaceBig] = Except.ok [swFaceBig]
        rw [runRank])
  · exact (claim_C3_outcomes swCurrent "selector.face" "" [] []
      (by decide)).2.2 [swFaceBig, swFaceSmall] (by rw [runRank]; rfl)
      (by simp)

/-- Embeds `vecToJson` (main.cpp:162). -/
def vecToJson (v : V3) : JVal := .arr [.num v.x, .num v.y, .num v.z]

/-- Embeds `pointToJson` (main.cpp:166). -/
def pointToJson (p : V3) : JVal := .arr [.num p.x, .num p.y, .num p.z]

/-- Embeds `makeSolidMeta` (main.cpp:250): `featureTags` is present only when the
tags value is non-null. -/
def makeSolidMeta (handle ownerKey featureId : String) (center : V3)
    (tags : JVal) : Meta :=
  [("handle", .str handle), ("ownerHandle", .str handle),
   ("ownerKey", .str ownerKey), ("createdBy", .str featureId),
   ("role", .str "body"), ("center", pointToJson center),
   ("centerZ", .num center.z)] ++
  (match tags with
   | .null => []
   | t => [("featureTags", t)])

/-- Embeds `makeFaceMeta` (main.cpp:267): the `normal` key is present only when the
token is nonempty, `normalVec` only when a normal vector exists, and
`featureTags` only when the tags value is non-null. -/
def makeFaceMeta (handle ownerHandle ownerKey featureId : String)
    (center : V3) (area : ℚ) (planar : Bool) (normal : String)
    (normalVec : Option V3) (tags : JVal) : Meta :=
  [("handle", .str handle), ("ownerHandle", .str ownerHandle),
   ("ownerKey", .str ownerKey), ("createdBy", .str featureId),
   ("planar", .bool planar), ("area", .num area),
   ("center", pointToJson center), ("centerZ", .num center.z)] ++
  (if normal = "" then [] else [("normal", .str normal)]) ++
  (match normalVec with
   | some nv => [("normalVec", vecToJson nv)]
   | none => []) ++
  (match tags with
   | .null => []
   | t => [("featureTags", t)])

/-- Embeds `makeEdgeMeta` (main.cpp:292). -/
def makeEdgeMeta (handle ownerHandle ownerKey featureId : String)
    (center : V3) (tags : JVal) : Meta :=
  [("handle", .str handle), ("ownerHandle", .str ownerHandle),
   ("ownerKey", .str ownerKey), ("createdBy", .str featureId),
   ("role", .str "edge"), ("center", pointToJson center),
   ("centerZ", .num center.z)] ++
  (match tags with
   | .null => []
   | t => [("featureTags", t)])

/-- Claim C4: a normal token is derived by snapping the normal vector to the
nearest canonical axis direction when at least one component magnitude is at
least `0.9` (the snapped token's axis vector maximizes the dot product with
the normal among the six canonical axis directions, which for unit vectors
is exactly minimal Euclidean distance), otherwise the direction is
indeterminate (`""`); the normal-direction predicate matches an element iff
its normal token equals the requested token; and an element whose direction
is indeterminate (its face metadata was built with the empty normal token,
so no `normal` key is present) never matches a normal-direction predicate
whose requested token is canonical. -/
theorem claim_C4_normalSnap (v : V3) (tok : String) (sel : KernelSelection) :
    (9/10 ≤ maxComp v →
      axisDirectionFromVector v ∈ canonicalTokens ∧
      ∀ t ∈ canonicalTokens,
        dotV3 v (axisVectorFromString t) ≤
          dotV3 v (axisVectorFromString (axisDirectionFromVector v))) ∧
    (maxComp v < 9/10 → axisDirectionFromVector v = "") ∧
    (predAccepts sel (.normal tok) = (metaStr sel.meta "normal" "" == tok)) ∧
    (tok ∈ canonicalTokens →
      ∀ (handle ownerHandle ownerKey featureId : String) (center : V3)
        (area : ℚ) (planar : Bool) (normalVec : Option V3) (tags : JVal),
      predAccepts ⟨"face", "face",
        makeFaceMeta handle ownerHandle ownerKey featureId center area planar
          "" normalVec tags⟩ (.normal tok) = false) := by
  refine ⟨?_, ?_, rfl, ?_⟩
  · intro h
    unfold maxComp at h
    simp only [axisDirectionFromVector]
    rw [if_neg (not_lt.mpr h)]
    have hxx : v.x ≤ |v.x| := le_abs_self _
    have hxn : -v.x ≤ |v.x| := neg_le_abs _
    have hyy : v.y ≤ |v.y| := le_abs_self _
    have hyn : -v.y ≤ |v.y| := neg_le_abs _
    have hzz : v.z ≤ |v.z| := le_abs_self _
    have hzn : -v.z ≤ |v.z| := neg_le_abs _
    by_cases h1 : |v.x| ≥ |v.y| ∧ |v.x| ≥ |v.z|
    · rw [if_pos h1]
      obtain ⟨h1y, h1z⟩ := h1
      by_cases hx : v.x ≥ 0
      · rw [if_pos hx]
        have habs : |v.x| = v.x := abs_of_nonneg hx
        refine ⟨by simp [canonicalTokens], ?_⟩
        intro t ht
        simp only [canonicalTokens, List.mem_cons, List.not_mem_nil,
          or_false] at ht
        rcases ht with rfl | rfl | rfl | rfl | rfl | rfl <;>
          simp [dotV3, axisVectorFromString] <;> linarith
      · rw [if_neg hx]
        have habs : |v.x| = -v.x := abs_of_neg (lt_of_not_ge hx)
        refine ⟨by simp [canonicalTokens], ?_⟩
        intro t ht
        simp only [canonicalTokens, List.mem_cons, List.not_mem_nil,
          or_false] at ht
        rcases ht with rfl | rfl | rfl | rfl | rfl | rfl <;>
          simp [dotV3, axisVectorFromString] <;> linarith
    · rw [if_neg h1]
      by_cases h2 : |v.y| ≥ |v.x| ∧ |v.y| ≥ |v.z|
      · rw [if_pos h2]
        obtain ⟨h2x, h2z⟩ := h2
        by_cases hy : v.y ≥ 0
        · rw [if_pos hy]
          have habs : |v.y| = v.y := abs_of_nonneg hy
          refine ⟨by simp [canonicalTokens], ?_⟩
          intro t ht
          simp only [canonicalTokens, List.mem_cons, List.not_mem_nil,
            or_false] at ht
          rcases ht with rfl | rfl | rfl | rfl | rfl | rfl <;>
            simp [dotV3, axisVectorFromString] <;> linarith
        · rw [if_neg hy]
          have habs : |v.y| = -v.y := abs_of_neg (lt_of_not_ge hy)
          refine ⟨by simp [canonicalTokens], ?_⟩
          intro t ht
          simp only [canonicalTokens, List.mem_cons, List.not_mem_nil,
            or_false] at ht
          rcases ht with rfl | rfl | rfl | rfl | rfl | rfl <;>
            simp [dotV3, axisVectorFromString] <;> linarith
      · rw [if_neg h2]
        push_neg at h1 h2
        have h3 : |v.z| ≥ |v.x| ∧ |v.z| ≥ |v.y| := by
          rcases le_or_lt |v.y| |v.x| with hyx | hxy
          · have hxz := h1 hyx
            constructor <;> linarith
          · have hyz := h2 (le_of_lt hxy)
            constructor <;> linarith
        obtain ⟨h3x, h3y⟩ := h3
        by_cases hz : v.z ≥ 0
        · rw [if_pos hz]
          have habs : |v.z| = v.z := abs_of_nonneg hz
          refine ⟨by simp [canonicalTokens], ?_⟩
          intro t ht
          simp only [canonicalTokens, List.mem_cons, List.not_mem_nil,
            or_false] at ht
          rcases ht with rfl | rfl | rfl | rfl | rfl | rfl <;>
            simp [dotV3, axisVectorFromString] <;> linarith
        · rw [if_neg hz]
          have habs : |v.z| = -v.z := abs_of_neg (lt_of_not_ge hz)
          refine ⟨by simp [canonicalTokens], ?_⟩
          intro t ht
          simp only [canonicalTokens, List.mem_cons, List.not_mem_nil,
            or_false] at ht
          rcases ht with rfl | rfl | rfl | rfl | rfl | rfl <;>
            simp [dotV3, axisVectorFromString] <;> linarith
  · intro h
    unfold maxComp at h
    simp only [axisDirectionFromVector]
    rw [if_pos h]
  · intro htok handle ownerHandle ownerKey featureId center area planar
      normalVec tags
    simp only [canonicalTokens, List.mem_cons, List.not_mem_nil,
      or_false] at htok
    rcases htok with rfl | rfl | rfl | rfl | rfl | rfl <;>
      cases normalVec <;> cases tags <;> rfl

def nwSel : KernelSelection := ⟨"face", "face", [("normal", .str "+Z")]⟩

/-- Witness for C4: a vector with dominant negative Z snaps to a canonical
token whose axis direction beats (here) the `+X` direction on dot product;
a vector with all components below `0.9` is indeterminate; the predicate
equation and the no-match-on-indeterminate facts hold at concrete inputs. -/
theorem claim_C4_normalSnap_witness :
    axisDirectionFromVector ⟨1/20, 1/10, -(19/20)⟩ ∈ canonicalTokens ∧
    dotV3 ⟨1/20, 1/10, -(19/20)⟩ (axisVectorFromString "+X") ≤
      dotV3 ⟨1/20, 1/10, -(19/20)⟩
        (axisVectorFromString
          (axisDirectionFromVector ⟨1/20, 1/10, -(19/20)⟩)) ∧
    axisDirectionFromVector ⟨1/2, 1/2, 1/2⟩ = "" ∧
    predAccepts nwSel (.normal "+Z") =
      (metaStr nwSel.meta "normal" "" == "+Z") ∧
    predAccepts ⟨"face", "face",
      makeFaceMeta "h1" "h0" "body:main" "f1" ⟨0, 0, 0⟩ 1 true "" none
        .null⟩ (.normal "+Z") = false := by
  have hm9 : (9 : ℚ)/10 ≤ maxComp ⟨1/20, 1/10, -(19/20)⟩ := by
    have hm : maxComp ⟨1/20, 1/10, -(19/20)⟩ = 19/20 := by
      simp only [maxComp]
      rw [abs_of_nonneg (by norm_num : (0:ℚ) ≤ 1/20),
        abs_of_nonneg (by norm_num : (0:ℚ) ≤ 1/10),
        abs_of_nonpos (by norm_num : (-(19/20) : ℚ) ≤ 0)]
      norm_num
    rw [hm]
    norm_num
  refine ⟨((claim_C4_normalSnap ⟨1/20, 1/10, -(19/20)⟩ "+Z" nwSel).1 hm9).1,
    ((claim_C4_normalSnap ⟨1/20, 1/10, -(19/20)⟩ "+Z" nwSel).1 hm9).2 "+X"
      (by simp [canonicalTokens]), ?_, ?_, ?_⟩
  · exact (claim_C4_normalSnap ⟨1/2, 1/2, 1/2⟩ "+Z" nwSel).2.1 (by
      have hm : maxComp ⟨1/2, 1/2, 1/2⟩ = 1/2 := by
        simp only [maxComp]
        rw [abs_of_nonneg (by norm_num : (0:ℚ) ≤ 1/2)]
        norm_num
      rw [hm]
      norm_num)
  · exact (claim_C4_normalSnap ⟨1/2, 1/2, 1/2⟩ "+Z" nwSel).2.2.1
  · exact (claim_C4_normalSnap ⟨1/2, 1/2, 1/2⟩ "+Z" nwSel).2.2.2
      (by simp [canonicalTokens]) "h1" "h0" "body:main" "f1" ⟨0, 0, 0⟩ 1 true
      none .null

theorem foldl_max_ge_init {β : Type} (f : β → ℚ) (l : List β) :
    ∀ init : ℚ, init ≤ l.foldl (fun b c => max b (f c)) init := by
  induction l with
  | nil => intro init; simp
  | cons hd tl ih =>
      intro init
      simp only [List.foldl_cons]
      exact le_trans (le_max_left _ _) (ih (max init (f hd)))

theorem foldl_max_ge_elem {β : Type} (f : β → ℚ) (l : List β) :
    ∀ init : ℚ, ∀ c ∈ l, f c ≤ l.foldl (fun b c => max b (f c)) init := by
  induction l with
  | nil => intro init c hc; simp at hc
  | cons hd tl ih =>
      intro init c hc
      simp only [List.foldl_cons]
      rcases List.mem_cons.mp hc with rfl | hc'
      · exact le_trans (le_max_right _ _) (foldl_max_ge_init f tl _)
      · exact ih (max init (f hd)) c hc'

theorem foldl_max_attained {β : Type} (f : β → ℚ) (l : List β) :
    ∀ init : ℚ, l.foldl (fun b c => max b (f c)) init = init ∨
      ∃ c ∈ l, f c = l.foldl (fun b c => max b (f c)) init := by
  induction l with
  | nil => intro init; left; rfl
  | cons hd tl ih =>
      intro init
      simp only [List.foldl_cons]
      rcases ih (max init (f hd)) with heq | ⟨c, hc, hfc⟩
      · rw [heq]
        rcases max_choice init (f hd) with hm | hm
        · left; exact hm
        · right; exact ⟨hd, List.mem_cons_self hd tl, hm.symm⟩
      · right; exact ⟨c, List.mem_cons_of_mem hd hc, hfc⟩

theorem foldl_optMin_isSome {β : Type} (f : β → ℚ) (l : List β) :
    ∀ b : Option ℚ, b.isSome = true ∨ l ≠ [] →
      (l.foldl (fun acc c => optMin acc (f c)) b).isSome = true := by
  induction l with
  | nil =>
      intro b h
      rcases h with h | h
      · exact h
      · exact absurd rfl h
  | cons hd tl ih =>
      intro b _
      simp only [List.foldl_cons]
      apply ih
      left
      cases b <;> rfl

theorem foldl_optMin_spec {β : Type} (f : β → ℚ) (l : List β) :
    ∀ (b : Option ℚ) (r : ℚ),
      l.foldl (fun acc c => optMin acc (f c)) b = some r →
      (b = some r ∨ ∃ c ∈ l, f c = r) ∧
      (∀ q, b = some q → r ≤ q) ∧ (∀ c ∈ l, r ≤ f c) := by
  induction l with
  | nil =>
      intro b r h
      have hb : b = some r := h
      refine ⟨Or.inl hb, fun q hq => ?_, fun c hc => by simp at hc⟩
      rw [hb] at hq
      exact le_of_eq (Option.some.inj hq)
  | cons hd tl ih =>
      intro b r h
      simp only [List.foldl_cons] at h
      obtain ⟨hatt, hbound, helem⟩ := ih (optMin b (f hd)) r h
      have hminle : ∀ q, optMin b (f hd) = some q → q ≤ f hd := by
        intro q hq
        cases b with
        | none => exact le_of_eq (Option.some.inj hq).symm
        | some p =>
            have : min p (f hd) = q := Option.some.inj hq
            rw [← this]
            exact min_le_right _ _
      refine ⟨?_, ?_, ?_⟩
      · rcases hatt with heq | ⟨c, hc, hfc⟩
        · cases b with
          | none =>
              right
              exact ⟨hd, List.mem_cons_self hd tl,
                (Option.some.inj heq).symm ▸ rfl⟩
          | some p =>
              have hm : min p (f hd) = r := Option.some.inj heq
              rcases min_choice p (f hd) with hc | hc
              · left; rw [← hm, hc]
              · right
                exact ⟨hd, List.mem_cons_self hd tl, by rw [← hm, hc]⟩
        · right; exact ⟨c, List.mem_cons_of_mem hd hc, hfc⟩
      · intro q hq
        subst hq
        cases hsome : optMin (some q) (f hd) with
        | none => cases hsome
        | some q' =>
            have h1 : r ≤ q' := hbound q' hsome
            have h2 : q' ≤ q := by
              have : min q (f hd) = q' := Option.some.inj hsome
              rw [← this]
              exact min_le_left _ _
            exact le_trans h1 h2
      · intro c hc
        rcases List.mem_cons.mp hc with rfl | hc'
        · cases hsome : optMin b (f c) with
          | none => cases b <;> cases hsome
          | some q' =>
              exact le_trans (hbound q' hsome) (hminle q' hsome)
        · exact helem c hc'

theorem foldl_optMax_isSome {β : Type} (f : β → ℚ) (l : List β) :
    ∀ b : Option ℚ, b.isSome = true ∨ l ≠ [] →
      (l.foldl (fun acc c => optMax acc (f c)) b).isSome = true := by
  induction l with
  | nil =>
      intro b h
      rcases h with h | h
      · exact h
      · exact absurd rfl h
  | cons hd tl ih =>
      intro b _
      simp only [List.foldl_cons]
      apply ih
      left
      cases b <;> rfl

theorem foldl_optMax_attained {β : Type} (f : β → ℚ) (l : List β) :
    ∀ (b : Option ℚ) (r : ℚ),
      l.foldl (fun acc c => optMax acc (f c)) b = some r →
      b = some r ∨ ∃ c ∈ l, f c = r := by
  induction l with
  | nil => intro b r h; exact Or.inl h
  | cons hd tl ih =>
      intro b r h
      simp only [List.foldl_cons] at h
      rcases ih (optMax b (f hd)) r h with heq | ⟨c, hc, hfc⟩
      · cases b with
        | none =>
            right
            exact ⟨hd, List.mem_cons_self hd tl,
              (Option.some.inj heq).symm ▸ rfl⟩
        | some p =>
            have hm : max p (f hd) = r := Option.some.inj heq
            rcases max_choice p (f hd) with hc | hc
            · left; rw [← hm, hc]
            · right
              exact ⟨hd, List.mem_cons_self hd tl, by rw [← hm, hc]⟩
      · right; exact ⟨c, List.mem_cons_of_mem hd hc, hfc⟩

set_option maxHeartbeats 1000000 in
/-- Claim C2 (amended): every ranking stage only narrows the candidate set
(`|after| ≤ |before|`, unconditionally); and a stage that does not fail
leaves at least one candidate, EXCEPT the `rank.maxArea` stage when every
candidate's `area` value is below `-1.0` (the fold's sentinel initial value
in main.cpp:518): there the best-value accumulator stays `-1.0`, no
candidate ties with it, and the stage returns zero candidates without
failing.  In particular `|after| ≥ 1` holds whenever some candidate has
`area ≥ -1`, e.g. always for the nonnegative areas the kernel produces. -/
theorem claim_C2_narrowing (current : KernelResult) (rule : RankRule)
    (cands after : List KernelSelection)
    (h : applyRule current cands rule = .ok after) :
    after.length ≤ cands.length ∧
    (cands ≠ [] →
      (rule = RankRule.maxArea → ∃ c ∈ cands, -1 ≤ metaNum c.meta "area" 0) →
      after ≠ []) := by
  cases rule with
  | maxArea =>
      rw [applyRule] at h
      have hafter : after = cands.filter
          (fun c => metaNum c.meta "area" 0 ==
            cands.foldl (fun b c => max b (metaNum c.meta "area" 0)) (-1)) :=
        (Except.ok.inj h).symm
      subst hafter
      refine ⟨List.length_filter_le _ _, ?_⟩
      intro hne harea
      obtain ⟨c₀, hc₀, hc₀a⟩ := harea rfl
      rcases foldl_max_attained (fun c => metaNum c.meta "area" 0) cands (-1)
        with hinit | ⟨c, hc, hfc⟩
      · have hle : metaNum c₀.meta "area" 0 ≤
            cands.foldl (fun b c => max b (metaNum c.meta "area" 0)) (-1) :=
          foldl_max_ge_elem _ cands (-1) c₀ hc₀
        have heq : metaNum c₀.meta "area" 0 =
            cands.foldl (fun b c => max b (metaNum c.meta "area" 0)) (-1) :=
          le_antisymm hle (by rw [hinit]; exact hc₀a)
        exact List.ne_nil_of_mem (List.mem_filter.mpr ⟨hc₀, by simp [heq]⟩)
      · exact List.ne_nil_of_mem (List.mem_filter.mpr ⟨hc, by simp [hfc]⟩)
  | minZ =>
      rw [applyRule] at h
      have hafter : after = cands.filter
          (fun c => some (metaNum c.meta "centerZ" 0) ==
            cands.foldl (fun b c => optMin b (metaNum c.meta "centerZ" 0))
              none) := (Except.ok.inj h).symm
      subst hafter
      refine ⟨List.length_filter_le _ _, ?_⟩
      intro hne _
      have hsome := foldl_optMin_isSome (fun c => metaNum c.meta "centerZ" 0)
        cands none (Or.inr hne)
      obtain ⟨r, hr⟩ := Option.isSome_iff_exists.mp hsome
      obtain ⟨hatt, -, -⟩ :=
        foldl_optMin_spec (fun c => metaNum c.meta "centerZ" 0) cands none r hr
      rcases hatt with h0 | ⟨c, hc, hfc⟩
      · cases h0
      · exact List.ne_nil_of_mem (List.mem_filter.mpr ⟨hc, by simp [hr, hfc]⟩)
  | maxZ =>
      rw [applyRule] at h
      have hafter : after = cands.filter
          (fun c => some (metaNum c.meta "centerZ" 0) ==
            cands.foldl (fun b c => optMax b (metaNum c.meta "centerZ" 0))
              none) := (Except.ok.inj h).symm
      subst hafter
      refine ⟨List.length_filter_le _ _, ?_⟩
      intro hne _
      have hsome := foldl_optMax_isSome (fun c => metaNum c.meta "centerZ" 0)
        cands none (Or.inr hne)
      obtain ⟨r, hr⟩ := Option.isSome_iff_exists.mp hsome
      rcases foldl_optMax_attained (fun c => metaNum c.meta "centerZ" 0)
          cands none r hr with h0 | ⟨c, hc, hfc⟩
      · cases h0
      · exact List.ne_nil_of_mem (List.mem_filter.mpr ⟨hc, by simp [hr, hfc]⟩)
  | closestTo target =>
      rw [applyRule] at h
      cases hres : resolveSelector current target with
      | error e => rw [hres] at h; exact Except.noConfusion h
      | ok tsel =>
          simp only [hres] at h
          cases hc : centerTriple tsel.meta with
          | none =>
              simp only [hc] at h
              exact Except.noConfusion h
          | some tc =>
              simp only [hc] at h
              have hafter : after = cands.filter
                  (fun c => some (dist2 (candCenter c.meta) tc) ==
                    cands.foldl
                      (fun b c => optMin b (dist2 (candCenter c.meta) tc))
                      none) := (Except.ok.inj h).symm
              subst hafter
              refine ⟨List.length_filter_le _ _, ?_⟩
              intro hne _
              have hsome := foldl_optMin_isSome
                (fun c => dist2 (candCenter c.meta) tc) cands none (Or.inr hne)
              obtain ⟨r, hr⟩ := Option.isSome_iff_exists.mp hsome
              obtain ⟨hatt, -, -⟩ := foldl_optMin_spec
                (fun c => dist2 (candCenter c.meta) tc) cands none r hr
              rcases hatt with h0 | ⟨c, hcm, hfc⟩
              · cases h0
              · exact List.ne_nil_of_mem
                  (List.mem_filter.mpr ⟨hcm, by simp [hr, hfc]⟩)
  | other k =>
      rw [applyRule] at h
      have : after = cands := (Except.ok.inj h).symm
      subst this
      exact ⟨le_refl _, fun hne _ => hne⟩

def cxFaceA : KernelSelection := ⟨"face", "face", [("area", .num (-2))]⟩

def cxFaceB : KernelSelection := ⟨"edge", "face", [("area", .num (-2))]⟩

def cxCurrent : KernelResult := ⟨[], [cxFaceA, cxFaceB]⟩

/-- Counterexample to C2 as stated: with two candidates whose `area` is
`-2`, the `rank.maxArea` stage succeeds (no failure) yet returns zero
candidates — the best-value fold starts at the sentinel `-1.0`
(main.cpp:518), stays there, and no candidate ties with it — so
`|candidates_after| ≥ 1 unless the stage itself fails` is violated; the
subsequent resolution then fails with the (misleading) ambiguity error even
though zero, not several, candidates remain. -/
theorem claim_C2_counterexample :
    applyRule cxCurrent [cxFaceA, cxFaceB] .maxArea = .ok [] ∧
    runRank cxCurrent [.maxArea] [cxFaceA, cxFaceB] = .ok [] ∧
    resolveSelector cxCurrent (.mk "selector.face" "" [] [.maxArea]) =
      .error "Selector ambiguity after ranking" := by
  have happ : applyRule cxCurrent [cxFaceA, cxFaceB] .maxArea = .ok [] := by
    rw [applyRule]; rfl
  have hrun : runRank cxCurrent [.maxArea] [cxFaceA, cxFaceB] = .ok [] := by
    rw [runRank, if_neg (by decide), happ]
    show runRank cxCurrent [] [] = Except.ok []
    rw [runRank]
  refine ⟨happ, hrun, ?_⟩
  rw [resolveSelector, if_neg (by decide)]
  rw [show filterCandidates "selector.face" [] cxCurrent.selections =
    [cxFaceA, cxFaceB] from rfl]
  rw [if_neg (by decide), hrun]

/-- Witness for the amended C2 at a concrete `maxArea` stage over two faces
with areas `100` and `25`. -/
theorem claim_C2_narrowing_witness :
    ([swFaceBig] : List KernelSelection).length ≤
      ([swFaceBig, swFaceSmall] : List KernelSelection).length ∧
    ([swFaceBig] : List KernelSelection) ≠ [] := by
  have h := claim_C2_narrowing swCurrent .maxArea [swFaceBig, swFaceSmall]
    [swFaceBig] (by rw [applyRule]; rfl)
  exact ⟨h.1, h.2 (by simp) (fun _ => ⟨swFaceBig, by simp,
    by rw [show metaNum swFaceBig.meta "area" 0 = 100 from rfl]; norm_num⟩)⟩

set_option maxHeartbeats 1000000 in
/-- Claim C5: the closest-to ranking stage first recursively resolves its
target selector against the current Result Model; if that inner resolution
fails, its exact failure (e.g. `Missing named output: _`, the spec's
`MissingNamedOutput`) propagates as the stage's failure out of the ranking
pipeline rather than a generic ambiguity error; on success (with well-formed
`center` metadata) exactly the candidates at minimum Euclidean distance from
the target's center to each candidate's center are kept — stated with the
squared distance `dist2`, which has the same minimizers and the same tie
set as the Euclidean distance because the square root is strictly monotone
on nonnegative reals. -/
theorem claim_C5_closestTo (current : KernelResult) (target : Selector)
    (rest : List RankRule) (cands : List KernelSelection)
    (h2 : 2 ≤ cands.length) :
    (∀ e, resolveSelector current target = .error e →
      runRank current (RankRule.closestTo target :: rest) cands = .error e) ∧
    (∀ tsel tc, resolveSelector current target = .ok tsel →
      centerTriple tsel.meta = some tc →
      applyRule current cands (.closestTo target) =
        .ok (cands.filter (fun c =>
          decide (∀ c' ∈ cands,
            dist2 (candCenter c.meta) tc ≤ dist2 (candCenter c'.meta) tc)))) := by
  constructor
  · intro e he
    rw [runRank, if_neg (by omega)]
    have happ : applyRule current cands (.closestTo target) = .error e := by
      rw [applyRule, he]
    rw [happ]
  · intro tsel tc hok hc
    rw [applyRule]
    simp only [hok, hc]
    have hne : cands ≠ [] := by
      intro hnil
      rw [hnil] at h2
      simp at h2
    have hsome := foldl_optMin_isSome
      (fun c => dist2 (candCenter c.meta) tc) cands none (Or.inr hne)
    obtain ⟨r, hr⟩ := Option.isSome_iff_exists.mp hsome
    obtain ⟨hatt, -, hbound⟩ := foldl_optMin_spec
      (fun c => dist2 (candCenter c.meta) tc) cands none r hr
    rcases hatt with h0 | ⟨m, hm, hmr⟩
    · cases h0
    · rw [hr]
      apply congrArg Except.ok
      apply List.filter_congr
      intro c hcmem
      by_cases hfc : dist2 (candCenter c.meta) tc = r
      · have hall : ∀ c' ∈ cands,
            dist2 (candCenter c.meta) tc ≤ dist2 (candCenter c'.meta) tc := by
          intro c' hc'
          rw [hfc]
          exact hbound c' hc'
        rw [decide_eq_true hall, hfc]
        simp
      · have hnall : ¬ (∀ c' ∈ cands,
            dist2 (candCenter c.meta) tc ≤ dist2 (candCenter c'.meta) tc) := by
          intro hP
          have h1 : dist2 (candCenter c.meta) tc ≤
              dist2 (candCenter m.meta) tc := hP m hm
          rw [hmr] at h1
          exact hfc (le_antisymm h1 (hbound c hcmem))
        rw [decide_eq_false hnall]
        simp [hfc]

def c5TargetMeta : Meta := [("center", .arr [.num 0, .num 0, .num 0])]

def c5Cur : KernelResult :=
  ⟨[("t", ⟨"t", "solid", c5TargetMeta⟩)], []⟩

def c5Near : KernelSelection :=
  ⟨"face", "face", [("center", .arr [.num 1, .num 0, .num 0])]⟩

def c5Far : KernelSelection :=
  ⟨"face", "face", [("center", .arr [.num 5, .num 0, .num 0])]⟩

/-- Witness for C5: a missing named output inside a `closestTo` target
propagates its exact error out of the pipeline, and a resolvable target
keeps exactly the nearest candidate. -/
theorem claim_C5_closestTo_witness :
    runRank c5Cur [.closestTo (.mk "selector.named" "missing" [] [])]
      [c5Near, c5Far] = .error "Missing named output: missing" ∧
    applyRule c5Cur [c5Near, c5Far]
      (.closestTo (.mk "selector.named" "t" [] [])) = .ok [c5Near] := by
  constructor
  · exact (claim_C5_closestTo c5Cur (.mk "selector.named" "missing" [] []) []
      [c5Near, c5Far] (by decide)).1 "Missing named output: missing"
      (by rw [resolveSelector]; rfl)
  · have h := (claim_C5_closestTo c5Cur (.mk "selector.named" "t" [] []) []
      [c5Near, c5Far] (by decide)).2 ⟨"t", "solid", c5TargetMeta⟩ ⟨0, 0, 0⟩
      (by rw [resolveSelector]; rfl) (by rfl)
    rw [h]
    have hnear : candCenter c5Near.meta = ⟨1, 0, 0⟩ := rfl
    have hfar : candCenter c5Far.meta = ⟨5, 0, 0⟩ := rfl
    have d1 : decide (∀ c' ∈ [c5Near, c5Far],
        dist2 (candCenter c5Near.meta) ⟨0, 0, 0⟩ ≤
          dist2 (candCenter c'.meta) ⟨0, 0, 0⟩) = true := by
      rw [decide_eq_true_eq]
      intro c' hmem
      rcases List.mem_cons.mp hmem with rfl | hmem2
      · exact le_refl _
      · rcases List.mem_cons.mp hmem2 with rfl | hmem3
        · rw [hnear, hfar]
          norm_num [dist2]
        · simp at hmem3
    have d2 : decide (∀ c' ∈ [c5Near, c5Far],
        dist2 (candCenter c5Far.meta) ⟨0, 0, 0⟩ ≤
          dist2 (candCenter c'.meta) ⟨0, 0, 0⟩) = false := by
      rw [decide_eq_false_iff_not]
      intro hP
      have hcontra := hP c5Near (List.mem_cons_self _ _)
      rw [hnear, hfar] at hcontra
      norm_num [dist2] at hcontra
    simp only [List.filter_cons, List.filter_nil]
    norm_num [dist2, hnear, hfar]

/-- Embeds `XCAFDimTolObjects_DatumSingleModif` values reachable through
`mapDatumModifier` (main.cpp:614). -/
inductive DatumModif : Type where
  | maximumMaterialRequirement : DatumModif
  | leastMaterialRequirement : DatumModif
  | basic : DatumModif
deriving DecidableEq

/-- Embeds `mapDatumModifier` (main.cpp:614): any tag other than `MMB`/`LMB` falls
through to the default `Basic`; the function is total and never fails. -/
def mapDatumModifier (mod : String) : DatumModif :=
  if mod = "MMB" then .maximumMaterialRequirement
  else if mod = "LMB" then .leastMaterialRequirement
  else .basic

/-- Embeds `XCAFDimTolObjects_GeomToleranceModif` values reachable through
`mapTolModifier` (main.cpp:620). -/
inductive TolModif : Type where
  | maximumMaterialRequirement : TolModif
  | leastMaterialRequirement : TolModif
  | freeState : TolModif
  | tangentPlane : TolModif
  | statisticalTolerance : TolModif
deriving DecidableEq

/-- Embeds `mapTolModifier` (main.cpp:620): unrecognized tags map to `none`. -/
def mapTolModifier (mod : String) : Option TolModif :=
  if mod = "MMC" then some .maximumMaterialRequirement
  else if mod = "LMC" then some .leastMaterialRequirement
  else if mod = "FREE_STATE" then some .freeState
  else if mod = "TANGENT_PLANE" then some .tangentPlane
  else if mod = "STATISTICAL" then some .statisticalTolerance
  else none

/-- The datum-modifier loop of `exportStepWithPmi` (main.cpp:791-794): every
tag is mapped through `mapDatumModifier` and added to the datum record;
there is no failure path. -/
def datumModifiersOf (mods : List String) : List DatumModif :=
  mods.map mapDatumModifier

/-- The tolerance-modifier loop of `exportStepWithPmi` (main.cpp:827-832): a
tag is added to the tolerance record only when `mapTolModifier` recognizes
it (`if (mapped) tolObj->AddModifier(*mapped)`). -/
def tolModifiersOf (mods : List String) : List TolModif :=
  mods.filterMap mapTolModifier

/-- Counterexample to C6 as stated: an unrecognized datum modifier tag does
NOT fail fast — `mapDatumModifier` is a total function with no error path
(main.cpp:617 `return ..._Basic`), so the tag is silently defaulted to
`Basic` and added to the datum record, exactly what the claim says must not
happen. -/
theorem claim_C6_counterexample :
    mapDatumModifier "UNRECOGNIZED" = .basic ∧
    datumModifiersOf ["UNRECOGNIZED"] = [.basic] := by
  exact ⟨by decide, by decide⟩

/-- Claim C6 (amended): in the annotation graph builder, an unrecognized
datum modifier tag is not an error but is silently mapped to the default
`Basic` modifier and added to the datum record, while an unrecognized
tolerance-constraint modifier is silently ignored (the tolerance record is
built without it).  Both mappings are lenient; they differ only in the
fallback (datum: defaulted to `Basic`; tolerance: dropped). -/
theorem claim_C6_modifierMapping (dm tm : String) (dmods tmods : List String)
    (hdm : dm ∉ ["MMB", "LMB"])
    (htm : tm ∉ ["MMC", "LMC", "FREE_STATE", "TANGENT_PLANE", "STATISTICAL"]) :
    mapDatumModifier dm = .basic ∧
    datumModifiersOf (dmods ++ [dm]) = datumModifiersOf dmods ++ [.basic] ∧
    mapTolModifier tm = none ∧
    tolModifiersOf (tmods ++ [tm]) = tolModifiersOf tmods := by
  simp only [List.mem_cons, List.not_mem_nil, or_false, not_or] at hdm htm
  obtain ⟨h1, h2⟩ := hdm
  obtain ⟨t1, t2, t3, t4, t5⟩ := htm
  have hd : mapDatumModifier dm = .basic := by
    unfold mapDatumModifier
    rw [if_neg h1, if_neg h2]
  have ht : mapTolModifier tm = none := by
    unfold mapTolModifier
    rw [if_neg t1, if_neg t2, if_neg t3, if_neg t4, if_neg t5]
  refine ⟨hd, ?_, ht, ?_⟩
  · unfold datumModifiersOf
    rw [List.map_append]
    simp [hd]
  · unfold tolModifiersOf
    rw [List.filterMap_append]
    simp [ht]

/-- Witness for the amended C6 at concrete tags. -/
theorem claim_C6_modifierMapping_witness :
    mapDatumModifier "WILD" = .basic ∧
    datumModifiersOf (["MMB"] ++ ["WILD"]) =
      datumModifiersOf ["MMB"] ++ [.basic] ∧
    mapTolModifier "WILD" = none ∧
    tolModifiersOf (["MMC"] ++ ["WILD"]) = tolModifiersOf ["MMC"] :=
  claim_C6_modifierMapping "WILD" "WILD" ["MMB"] ["MMC"] (by decide) (by decide)

/-- Embeds `ShapeRegistry` (main.cpp:76): a string-keyed map of kernel objects plus
a monotone counter.  The kernel object type (`TopoDS_Shape`, which covers
solids, faces and edges alike) is opaque to this engine and becomes the
type parameter `α`. -/
structure ShapeRegistry (α : Type) : Type where
  shapes : List (String × α)
  counter : Nat

/-- Embeds `ShapeRegistry::registerShape` (main.cpp:78): issue the handle
`"shape:" ++ counter`, store the shape under it, increment the counter. -/
def ShapeRegistry.registerShape {α : Type} (r : ShapeRegistry α) (shape : α) :
    String × ShapeRegistry α :=
  let handle := "shape:" ++ toString r.counter
  (handle, ⟨mapSet r.shapes handle shape, r.counter + 1⟩)

/-- Embeds `ShapeRegistry::get` (main.cpp:84): throws `Unknown shape handle: _`
(the spec's `UnknownHandle`) for a handle not in the map. -/
def ShapeRegistry.get {α : Type} (r : ShapeRegistry α) (handle : String) :
    Except String α :=
  match mapFind r.shapes handle with
  | none => .error ("Unknown shape handle: " ++ handle)
  | some s => .ok s

/-- Embeds `Session` (main.cpp:99). -/
structure Session (α : Type) : Type where
  registry : ShapeRegistry α
  current : KernelResult

/-- The external geometry kernel (spec §6, out of scope per §1), abstracted
as operation parameters over the opaque shape type `α`.  `classify` returns
the plane normal when `classify_surface` reports a planar face and `none`
otherwise — covering also a thrown kernel classification failure, which the
source catches and degrades to "not planar, no normal" (main.cpp:354-365);
`surfaceProps` returns `none` when `SurfaceProperties` throws, in which
case the source keeps area `0` and falls back to the bounding-box center
(main.cpp:343-349).  Per §6 the remaining contracts are total. -/
structure GeomKernel (α : Type) : Type where
  makeRectangle : ℚ → ℚ → V3 → α
  makeCircle : ℚ → V3 → α
  makePolygon : Int → ℚ → V3 → ℚ → α
  extrude : α → V3 → ℚ → α
  faces : α → List α
  edges : α → List α
  surfaceProps : α → Option (ℚ × V3)
  classify : α → Option V3
  shapeCenter : α → V3

/-- Embeds `parseScalar` (main.cpp:121). -/
def parseScalar (value : JVal) (fallback : ℚ) : ℚ :=
  match value with
  | .num q => q
  | .obj fields =>
      if metaStr fields "kind" "" = "expr.literal" then
        metaNum fields "value" fallback
      else fallback
  | _ => fallback

/-- Embeds `parsePoint2D` (main.cpp:134). -/
def parsePoint2D (value : JVal) (z : ℚ) : V3 :=
  match value with
  | .arr (a :: b :: _) => ⟨parseScalar a 0, parseScalar b 0, z⟩
  | _ => ⟨0, 0, z⟩

/-- Embeds `parseAxis` (main.cpp:232). -/
def parseAxis (axis : JVal) : V3 :=
  match axis with
  | .str s => axisVectorFromString s
  | .obj fields =>
      if metaStr fields "kind" "" = "axis.vector" then
        match metaVal fields "direction" (.arr [.num 0, .num 0, .num 1]) with
        | .arr (a :: b :: c :: _) =>
            ⟨parseScalar a 0, parseScalar b 0, parseScalar c 0⟩
        | _ => ⟨0, 0, 1⟩
      else ⟨0, 0, 1⟩
  | _ => ⟨0, 0, 1⟩

/-- Embeds `static_cast<int>` on a floating value truncates toward zero; so does
`Int` division in Lean. -/
def truncToInt (q : ℚ) : Int := q.num / (q.den : Int)

/-- Embeds `buildProfileFace` (main.cpp:209), with the `sides >= 3` check of
`makePolygonFace` (main.cpp:193) inlined at its only call site.  A
non-object profile reads every field as absent (the source would raise a
transport-level type exception before touching any session state, so claim
C7 is unaffected). -/
def buildProfileFace {α : Type} (K : GeomKernel α) (profile : JVal) :
    Except String α :=
  let fields := match profile with
    | .obj fs => fs
    | _ => []
  let kind := metaStr fields "kind" ""
  if kind = "profile.rectangle" then
    let width := parseScalar (metaVal fields "width" .null) 0
    let height := parseScalar (metaVal fields "height" .null) 0
    let center := parsePoint2D (metaVal fields "center" (.arr [.num 0, .num 0])) 0
    .ok (K.makeRectangle width height center)
  else if kind = "profile.circle" then
    let radius := parseScalar (metaVal fields "radius" .null) 0
    let center := parsePoint2D (metaVal fields "center" (.arr [.num 0, .num 0])) 0
    .ok (K.makeCircle radius center)
  else if kind = "profile.poly" then
    let sides := truncToInt (parseScalar (metaVal fields "sides" .null) 0)
    let radius := parseScalar (metaVal fields "radius" .null) 0
    let center := parsePoint2D (metaVal fields "center" (.arr [.num 0, .num 0])) 0
    let rotation := parseScalar (metaVal fields "rotation" (.num 0)) 0
    if sides < 3 then .error "profile.poly requires sides >= 3"
    else .ok (K.makePolygon sides radius center rotation)
  else .error ("Unsupported profile kind: " ++ kind)

/-- Embeds `collectSelections` (main.cpp:320): register the solid, then every face
and edge, building the selection list (solid first, then faces, then edges)
and the single named output under `ownerKey`; the registry is threaded
through explicitly. -/
def collectSelections {α : Type} (K : GeomKernel α) (shape : α)
    (registry : ShapeRegistry α) (featureId ownerKey : String) (tags : JVal) :
    KernelResult × ShapeRegistry α :=
  let step0 := registry.registerShape shape
  let ownerHandle := step0.1
  let solidSel : KernelSelection :=
    ⟨"solid", "solid",
     makeSolidMeta ownerHandle ownerKey featureId (K.shapeCenter shape) tags⟩
  let faceStep := (K.faces shape).foldl
    (fun (acc : List KernelSelection × ShapeRegistry α) face =>
      let reg := acc.2.registerShape face
      let props := K.surfaceProps face
      let area := match props with
        | some p => p.1
        | none => 0
      let center := match props with
        | some p => p.2
        | none => K.shapeCenter face
      let cls := K.classify face
      let planar := cls.isSome
      let normalDir := match cls with
        | some nv => axisDirectionFromVector nv
        | none => ""
      (acc.1 ++ [⟨"face", "face",
        makeFaceMeta reg.1 ownerHandle ownerKey featureId center area
          planar normalDir cls tags⟩], reg.2))
    ([], step0.2)
  let edgeStep := (K.edges shape).foldl
    (fun (acc : List KernelSelection × ShapeRegistry α) edge =>
      let reg := acc.2.registerShape edge
      (acc.1 ++ [⟨"edge", "edge",
        makeEdgeMeta reg.1 ownerHandle ownerKey featureId
          (K.shapeCenter edge) tags⟩], reg.2))
    ([], faceStep.2)
  let output : KernelObject :=
    ⟨featureId ++ ":" ++ ownerKey, "solid",
     [("handle", .str ownerHandle), ("role", .str "body")]⟩
  (⟨[(ownerKey, output)], solidSel :: (faceStep.1 ++ edgeStep.1)⟩, edgeStep.2)

/-- The `/v1/exec-feature` handler body (main.cpp:890-933), after JSON
parsing of the request (which precedes any access to session state).  The
session is threaded explicitly so that the mutation order of the source is
visible: every failing check happens before the registry is first touched
in `collectSelections`, and `session.current` is assigned the merged model
only on full success.  The source normalizes the extrusion axis and scales
it by the depth before calling the kernel; the normalization involves a
square root, so the raw direction and the depth are handed to the abstract
kernel `extrude` operation instead (the zero-direction fallback to `+Z` is
kept, phrased on the squared magnitude, which vanishes iff the magnitude
does). -/
def execFeature {α : Type} (K : GeomKernel α) (session : Session α)
    (upstream : KernelResult) (feature : Meta) :
    Except String KernelResult × Session α :=
  let kind := metaStr feature "kind" ""
  let featureId := metaStr feature "id" "feature"
  let tags := metaVal feature "tags" (.arr [])
  if kind ≠ "feature.extrude" then
    (.error ("Unsupported feature kind: " ++ kind), session)
  else
    let profile := metaVal feature "profile" (.obj [])
    let profileFields := match profile with
      | .obj fs => fs
      | _ => []
    if metaStr profileFields "kind" "" = "profile.ref" then
      (.error "profile.ref not supported in native backend yet", session)
    else
      match buildProfileFace K profile with
      | .error e => (.error e, session)
      | .ok face =>
          let depthJson := metaVal feature "depth" (.num 0)
          let throughAll : Bool := match depthJson with
            | .str s => s == "throughAll"
            | _ => false
          if throughAll then
            (.error "throughAll not supported in native backend yet", session)
          else
            let depth := parseScalar depthJson 0
            let axis0 := parseAxis (metaVal feature "axis" (.obj []))
            let axis := if axis0.x * axis0.x + axis0.y * axis0.y +
                axis0.z * axis0.z = 0 then (⟨0, 0, 1⟩ : V3) else axis0
            let solid := K.extrude face axis depth
            let resultKey := metaStr feature "result" "body:main"
            let step := collectSelections K solid session.registry featureId
              resultKey tags
            let merged := mergeResults upstream step.1
            (.ok step.1, ⟨step.2, merged⟩)

/-- Claim C7: if an apply-feature operation fails with any error, no partial
mutation of session state is committed — the session (its current Result
Model and its handle registry alike) comes back exactly as it was, because
every failing check of the handler precedes the first registry mutation;
and the current Result Model is replaced, by the merge of the upstream
model with the freshly built partial result, only when the feature fully
succeeds. -/
theorem claim_C7_atomicity {α : Type} (K : GeomKernel α) (session : Session α)
    (upstream : KernelResult) (feature : Meta) :
    (∀ e s', execFeature K session upstream feature = (.error e, s') →
      s' = session) ∧
    (∀ r s', execFeature K session upstream feature = (.ok r, s') →
      s'.current = mergeResults upstream r ∧
      s'.registry = (collectSelections K
        (K.extrude
          (match buildProfileFace K (metaVal feature "profile" (.obj [])) with
           | .ok face => face
           | .error _ => K.extrude (K.makeRectangle 0 0 ⟨0, 0, 0⟩) ⟨0, 0, 1⟩ 0)
          (let axis0 := parseAxis (metaVal feature "axis" (.obj []))
           if axis0.x * axis0.x + axis0.y * axis0.y + axis0.z * axis0.z = 0
           then (⟨0, 0, 1⟩ : V3) else axis0)
          (parseScalar (metaVal feature "depth" (.num 0)) 0))
        session.registry (metaStr feature "id" "feature")
        (metaStr feature "result" "body:main")
        (metaVal feature "tags" (.arr []))).2) := by
  constructor
  · intro e s' h
    simp only [execFeature] at h
    split at h
    · exact (congrArg Prod.snd h).symm
    · split at h
      · exact (congrArg Prod.snd h).symm
      · split at h
        · exact (congrArg Prod.snd h).symm
        · split at h
          · exact (congrArg Prod.snd h).symm
          · exact absurd (congrArg Prod.fst h) (by simp)
  · intro r s' h
    simp only [execFeature] at h
    split at h
    · exact absurd (congrArg Prod.fst h) (by simp)
    · split at h
      · exact absurd (congrArg Prod.fst h) (by simp)
      · split at h
        · exact absurd (congrArg Prod.fst h) (by simp)
        · split at h
          · exact absurd (congrArg Prod.fst h) (by simp)
          · rename_i face heq hthrough
            have hfst := congrArg Prod.fst h
            have hsnd := congrArg Prod.snd h
            simp only at hfst hsnd
            have hr := Except.ok.inj hfst
            subst hsnd
            refine ⟨?_, ?_⟩
            · show mergeResults upstream _ = mergeResults upstream r
              rw [hr]
            · show (collectSelections _ _ _ _ _ _).2 = _
              simp only [heq]

/-- A concrete kernel instance over `α := Nat`, used to instantiate the
session-level theorems on closed inputs. -/
def constKernel : GeomKernel Nat where
  makeRectangle := fun _ _ _ => 0
  makeCircle := fun _ _ => 0
  makePolygon := fun _ _ _ _ => 0
  extrude := fun s _ _ => s
  faces := fun _ => []
  edges := fun _ => []
  surfaceProps := fun _ => none
  classify := fun _ => none
  shapeCenter := fun _ => ⟨0, 0, 0⟩

def w7Session : Session Nat := ⟨⟨[], 0⟩, ⟨[], []⟩⟩

def w7BadFeature : Meta := [("kind", .str "feature.revolve")]

def w7GoodFeature : Meta :=
  [("kind", .str "feature.extrude"),
   ("profile", .obj [("kind", .str "profile.rectangle"),
     ("width", .num 10), ("height", .num 10)]),
   ("depth", .num 5)]

/-- Witness for C7: a rejected feature kind (error path of the handler)
leaves the concrete session untouched. -/
theorem claim_C7_atomicity_witness :
    execFeature constKernel w7Session ⟨[], []⟩ w7BadFeature =
      (.error "Unsupported feature kind: feature.revolve", w7Session) ∧
    w7Session = w7Session := by
  have hbad : execFeature constKernel w7Session ⟨[], []⟩ w7BadFeature =
      (.error "Unsupported feature kind: feature.revolve", w7Session) := rfl
  exact ⟨hbad, (claim_C7_atomicity constKernel w7Session ⟨[], []⟩
    w7BadFeature).1 "Unsupported feature kind: feature.revolve" w7Session hbad⟩

/-- Witness for C9: an unrecognized selector kind string applies no
element-kind filter at concrete inputs — a solid passes `kindAccepts`, the
candidate set is every selection, and two different unrecognized kinds
resolve identically. -/
theorem claim_C9_noKindFilter_witness :
    kindAccepts "selector.any" ⟨"solid", "solid", []⟩ = true ∧
    filterCandidates "selector.any" [] swCurrent.selections =
      swCurrent.selections.filter (fun sel => List.all [] (predAccepts sel)) ∧
    resolveSelector swCurrent (.mk "selector.any" "" [] []) =
      resolveSelector swCurrent (.mk "selector.weird" "x" [] []) := by
  have h := claim_C9_noKindFilter "selector.any" (by decide)
  exact ⟨h.1 ⟨"solid", "solid", []⟩, h.2.1 [] swCurrent.selections,
    h.2.2 "selector.weird" (by decide) "" "x" [] [] swCurrent⟩

/-- Decimal value of a digit character produced by `Nat.digitChar`. -/
def decDigitVal (c : Char) : Nat := c.toNat - '0'.toNat

/-- Value of a most-significant-first decimal digit string. -/
def decValOfDigits : List Char → Nat
  | [] => 0
  | c :: cs => decDigitVal c * 10 ^ cs.length + decValOfDigits cs

theorem decDigitVal_digitChar : ∀ m < 10, decDigitVal (Nat.digitChar m) = m := by
  decide

theorem decValOfDigits_toDigitsCore (fuel : Nat) :
    ∀ (n : Nat) (acc : List Char), n < fuel →
    decValOfDigits (Nat.toDigitsCore 10 fuel n acc) =
      n * 10 ^ acc.length + decValOfDigits acc := by
  induction fuel with
  | zero => intro n acc h; exact absurd h (Nat.not_lt_zero n)
  | succ f ih =>
      intro n acc h
      simp only [Nat.toDigitsCore]
      by_cases hn : n / 10 = 0
      · rw [if_pos hn]
        have hlt : n < 10 := by omega
        rw [decValOfDigits, decDigitVal_digitChar (n % 10) (Nat.mod_lt n (by omega) ),
          Nat.mod_eq_of_lt hlt]
      · rw [if_neg hn]
        have hpos : 0 < n := by
          rcases Nat.eq_zero_or_pos n with rfl | hp
          · exact absurd rfl hn
          · exact hp
        have hlt : n / 10 < f := by
          have h1 : n / 10 < n := Nat.div_lt_self hpos (by omega)
          omega
        rw [ih (n / 10) (Nat.digitChar (n % 10) :: acc) hlt]
        rw [List.length_cons, decValOfDigits,
          decDigitVal_digitChar (n % 10) (Nat.mod_lt n (by omega))]
        have hsplit : n / 10 * 10 + n % 10 = n := by
          have := Nat.div_add_mod n 10
          omega
        rw [pow_succ]
        conv_rhs => rw [← hsplit]
        ring

theorem decValOfDigits_repr (n : Nat) :
    decValOfDigits (Nat.repr n).data = n := by
  have h := decValOfDigits_toDigitsCore (n + 1) n [] (Nat.lt_succ_self n)
  simpa [Nat.repr, Nat.toDigits] using h

theorem natRepr_injective {m n : Nat} (h : Nat.repr m = Nat.repr n) : m = n := by
  have hm := decValOfDigits_repr m
  rw [h, decValOfDigits_repr n] at hm
  exact hm.symm

/-- The handle issued for the `i`-th registration of a session
(`"shape:" + std::to_string(i)`). -/
def handleOf (i : Nat) : String := "shape:" ++ toString i

theorem handleOf_injective {a b : Nat} (h : handleOf a = handleOf b) :
    a = b := by
  unfold handleOf at h
  have hdata := congrArg String.data h
  rw [String.data_append, String.data_append] at hdata
  have hcancel := List.append_cancel_left hdata
  have hstr : toString a = toString b := by
    apply String.ext
    exact hcancel
  exact natRepr_injective hstr

/-- The registry invariant: every stored key is one of the handles issued so
far.  It holds for a fresh session registry and is preserved by every
registration; it is the `unordered_map`-backed state discipline the source
maintains because handles enter the map only through `registerShape`. -/
def RegistryWF {α : Type} (r : ShapeRegistry α) : Prop :=
  ∀ k, (mapFind r.shapes k).isSome = true → ∃ i, i < r.counter ∧ k = handleOf i

/-- A sequence of later registrations (arbitrary "life of the session"). -/
def registerMany {α : Type} (r : ShapeRegistry α) : List α → ShapeRegistry α
  | [] => r
  | s :: ss => registerMany (r.registerShape s).2 ss

theorem registerShape_wf {α : Type} (r : ShapeRegistry α) (o : α)
    (hwf : RegistryWF r) : RegistryWF (r.registerShape o).2 := by
  intro k hk
  simp only [ShapeRegistry.registerShape] at hk ⊢
  by_cases hkc : k = handleOf r.counter
  · exact ⟨r.counter, Nat.lt_succ_self _, hkc⟩
  · rw [show ("shape:" ++ toString r.counter) = handleOf r.counter from rfl,
      mapFind_mapSet_ne _ _ _ _ hkc] at hk
    obtain ⟨i, hi, hik⟩ := hwf k hk
    exact ⟨i, Nat.lt_succ_of_lt hi, hik⟩

theorem registerMany_spec {α : Type} (os : List α) :
    ∀ r : ShapeRegistry α, RegistryWF r →
    RegistryWF (registerMany r os) ∧
    r.counter ≤ (registerMany r os).counter ∧
    ∀ i o, i < r.counter → mapFind r.shapes (handleOf i) = some o →
      mapFind (registerMany r os).shapes (handleOf i) = some o := by
  induction os with
  | nil =>
      intro r hwf
      exact ⟨hwf, le_refl _, fun i o _ hm => hm⟩
  | cons s ss ih =>
      intro r hwf
      have hwf' := registerShape_wf r s hwf
      obtain ⟨hwf'', hcnt, hpres⟩ := ih (r.registerShape s).2 hwf'
      refine ⟨hwf'', ?_, ?_⟩
      · calc r.counter ≤ (r.registerShape s).2.counter := Nat.le_succ _
          _ ≤ _ := hcnt
      · intro i o hi hm
        apply hpres i o
        · exact Nat.lt_succ_of_lt hi
        · simp only [ShapeRegistry.registerShape]
          rw [show ("shape:" ++ toString r.counter) = handleOf r.counter
            from rfl, mapFind_mapSet_ne]
          · exact hm
          · intro hcontra
            exact absurd (handleOf_injective hcontra) (by omega)

/-- Claim C8: `registerShape` always succeeds (it is a total function) and
returns a fresh handle never issued before by this registry instance;
`get h` returns the registered object `o`, and keeps doing so after any
further sequence of registrations (the life of the session, in which the
registry only grows); and `get` on a handle never issued by this registry
instance fails with `Unknown shape handle: _` (the spec's
`UnknownHandle`). -/
theorem claim_C8_registry {α : Type} (r : ShapeRegistry α) (o : α)
    (hwf : RegistryWF r) :
    (∀ i, i < r.counter → (r.registerShape o).1 ≠ handleOf i) ∧
    (r.registerShape o).2.get ((r.registerShape o).1) = .ok o ∧
    (∀ os : List α,
      (registerMany (r.registerShape o).2 os).get ((r.registerShape o).1) =
        .ok o) ∧
    (∀ k, (∀ i, i < r.counter → k ≠ handleOf i) →
      r.get k = .error ("Unknown shape handle: " ++ k)) := by
  have hhandle : (r.registerShape o).1 = handleOf r.counter := rfl
  have hself : mapFind (r.registerShape o).2.shapes (handleOf r.counter) =
      some o := by
    simp only [ShapeRegistry.registerShape]
    rw [show ("shape:" ++ toString r.counter) = handleOf r.counter from rfl]
    exact mapFind_mapSet_self _ _ _
  refine ⟨?_, ?_, ?_, ?_⟩
  · intro i hi hcontra
    rw [hhandle] at hcontra
    exact absurd (handleOf_injective hcontra) (by omega)
  · rw [hhandle]
    unfold ShapeRegistry.get
    rw [hself]
  · intro os
    rw [hhandle]
    unfold ShapeRegistry.get
    obtain ⟨-, -, hpres⟩ :=
      registerMany_spec os (r.registerShape o).2 (registerShape_wf r o hwf)
    rw [hpres r.counter o (Nat.lt_succ_self _) hself]
  · intro k hk
    unfold ShapeRegistry.get
    cases hm : mapFind r.shapes k with
    | none => rfl
    | some s =>
        obtain ⟨i, hi, hik⟩ := hwf k (by rw [hm]; rfl)
        exact absurd hik (hk i hi)

/-- Witness for C8 on a fresh registry over `Nat` shapes: the first
registration is retrievable, stays retrievable after two later
registrations, an unissued handle fails with `Unknown shape handle`, and a
second registration's handle differs from the first one issued. -/
theorem claim_C8_registry_witness :
    ((⟨[], 0⟩ : ShapeRegistry Nat).registerShape 5).2.get
      (((⟨[], 0⟩ : ShapeRegistry Nat).registerShape 5).1) = .ok 5 ∧
    (registerMany ((⟨[], 0⟩ : ShapeRegistry Nat).registerShape 5).2
      [7, 9]).get (((⟨[], 0⟩ : ShapeRegistry Nat).registerShape 5).1) =
      .ok 5 ∧
    (⟨[], 0⟩ : ShapeRegistry Nat).get "nope" =
      .error ("Unknown shape handle: " ++ "nope") ∧
    ((((⟨[], 0⟩ : ShapeRegistry Nat).registerShape 5).2).registerShape 6).1 ≠
      handleOf 0 := by
  have hwf0 : RegistryWF (⟨[], 0⟩ : ShapeRegistry Nat) := by
    intro k hk
    simp [mapFind] at hk
  have h := claim_C8_registry (⟨[], 0⟩ : ShapeRegistry Nat) 5 hwf0
  have hwf1 := registerShape_wf (⟨[], 0⟩ : ShapeRegistry Nat) 5 hwf0
  have h1 := claim_C8_registry
    (((⟨[], 0⟩ : ShapeRegistry Nat).registerShape 5).2) 6 hwf1
  exact ⟨h.2.1, h.2.2.1 [7, 9],
    h.2.2.2 "nope" (fun i hi => absurd hi (Nat.not_lt_zero i)),
    h1.1 0 (by decide)⟩
